import Mathlib

/-!
Verification of `scripts/generate_token_list_file.py` (bmino/token-list).

The script aggregates per-token `data.json` files from the `mainnet/`
directory into a single versioned manifest `tokenlist-mainnet.json`,
classifies the change against the previously published manifest
(major / minor / patch / none) and bumps a semantic version accordingly.

Shallow embedding conventions:
* Parsed JSON5 objects (token records) are modelled as association lists
  `List (String × JVal)` with Python-dict semantics: unique keys in
  insertion order for every dict the program actually builds; lookup,
  in-place update with append-on-miss, and order-insensitive equality are
  given by `dget?`, `dset` and `dictEqb`. Scalar field values are modelled
  by `JVal`; the core logic never inspects the shape of a value beyond
  equality, so nested JSON values are not distinguished further.
* Python exceptions (`KeyError` from `t["symbol"]` or `["address"]`,
  `ValueError` from parsing, `OSError` from I/O) are modelled with
  `Except String`.
* Python set iteration order (used only to order the symbols inside
  human-readable description strings) is unspecified; the model fixes key
  insertion order. `", ".join(...)` is modelled by `String.intercalate`
  over a rendering `jstr` of the symbol values; this is exact whenever the
  symbols are strings, which every theorem below assumes where it matters.
-/

/-- A scalar JSON5 value as produced by `json5.load`. -/
inductive JVal where
  | s : String → JVal
  | i : Int → JVal
  | b : Bool → JVal
  | null : JVal
deriving DecidableEq, Repr

/-- A parsed token record: a Python dict, keys in insertion order. -/
def Token := List (String × JVal)
deriving DecidableEq, Repr

/-- A Python dict keyed by arbitrary (hashable) values, as built by the
`{t["symbol"]: t for t in tokens}` comprehensions in `compare_tokens`. -/
def JMap := List (JVal × Token)
deriving DecidableEq, Repr

/-- Dict lookup `d[k]` (first binding; dicts built by the program have
unique keys). `none` models a raised `KeyError`. -/
def dget? : Token → String → Option JVal
  | [], _ => none
  | (k', v) :: rest, k => if k' = k then some v else dget? rest k

/-- Dict assignment `d[k] = v`: update in place if present, append if
absent (Python dicts keep the original key position on update). -/
def dset : Token → String → JVal → Token
  | [], k, v => [(k, v)]
  | (k', v') :: rest, k, v =>
    if k' = k then (k, v) :: rest else (k', v') :: dset rest k v

/-- Python dict equality: same key set, same value at every key
(insertion order is ignored by `==` on dicts). -/
def dictEqb (d1 d2 : Token) : Bool :=
  d1.all (fun p => decide (dget? d2 p.1 = dget? d1 p.1)) &&
  d2.all (fun p => decide (dget? d1 p.1 = dget? d2 p.1))

/-- Lookup in a symbol-keyed map (`old_map[key]`). -/
def mget? : JMap → JVal → Option Token
  | [], _ => none
  | (k', t) :: rest, k => if k' = k then some t else mget? rest k

/-- Assignment into a symbol-keyed map (dict-comprehension step). -/
def mset : JMap → JVal → Token → JMap
  | [], k, t => [(k, t)]
  | (k', t') :: rest, k, t =>
    if k' = k then (k, t) :: rest else (k', t') :: mset rest k t

/-- The value of `t["symbol"]`, when present. -/
def symKey? (t : Token) : Option JVal := dget? t "symbol"

/-- Rendering of a symbol value inside a description string. For the
string symbols assumed throughout, this is the string itself. -/
def jstr : JVal → String
  | .s s => s
  | .i n => toString n
  | .b true => "True"
  | .b false => "False"
  | .null => "None"

/-- A three-part semantic version `{major, minor, patch}`. -/
structure Version where
  major : Nat
  minor : Nat
  patch : Nat
deriving DecidableEq, Repr

/-- `increment_version(current_version, change_type)`: bump the version
according to the classification; any unrecognized classification
(including `None`) falls through to the final `return` and yields the
version unchanged. -/
def increment_version (current_version : Version) (change_type : Option String) :
    Version :=
  if change_type = some "major" then
    ⟨current_version.major + 1, 0, 0⟩
  else if change_type = some "minor" then
    ⟨current_version.major, current_version.minor + 1, 0⟩
  else if change_type = some "patch" then
    ⟨current_version.major, current_version.minor, current_version.patch + 1⟩
  else
    ⟨current_version.major, current_version.minor, current_version.patch⟩

/-- Lexicographic (semver) order on versions. -/
def semverLE (a b : Version) : Prop :=
  a.major < b.major ∨
    (a.major = b.major ∧
      (a.minor < b.minor ∨ (a.minor = b.minor ∧ a.patch ≤ b.patch)))

instance : DecidablePred (fun p : Version × Version => semverLE p.1 p.2) := by
  intro p
  unfold semverLE
  infer_instance

/-! ## The Differ: `compare_tokens` -/

/-- Membership of a symbol value in a key list (`key in key_set`). -/
def memJ (k : JVal) (ks : List JVal) : Bool :=
  ks.any (fun j => decide (j = k))

/-- The dict comprehension `{t["symbol"]: t for t in tokens}`, threaded
through an accumulator: entries are inserted in list order, a later token
with an already-seen symbol overwrites the earlier entry in place, and a
token without a `symbol` field raises `KeyError`. -/
def buildMapFrom (acc : JMap) : List Token → Except String JMap
  | [] => .ok acc
  | t :: rest =>
    match symKey? t with
    | some s => buildMapFrom (mset acc s t) rest
    | none => .error "KeyError: symbol"

/-- `{t["symbol"]: t for t in tokens}`. -/
def buildMap (tokens : List Token) : Except String JMap :=
  buildMapFrom [] tokens

/-- The keys of a symbol-keyed map, in insertion order. -/
def keysOf (m : JMap) : List JVal := m.map Prod.fst

/-- The loop `for key in old_keys & new_keys: if old_map[key]["address"]
!= new_map[key]["address"]: return major`. Returns the first key whose
address differs; a record without an `address` field raises `KeyError`. -/
def addressLoop (old_map new_map : JMap) : List JVal → Except String (Option JVal)
  | [] => .ok none
  | k :: ks =>
    match mget? old_map k with
    | none => .error "KeyError: key"
    | some old_token =>
      match dget? old_token "address" with
      | none => .error "KeyError: address"
      | some oa =>
        match mget? new_map k with
        | none => .error "KeyError: key"
        | some new_token =>
          match dget? new_token "address" with
          | none => .error "KeyError: address"
          | some na =>
            if oa = na then addressLoop old_map new_map ks else .ok (some k)

/-- The loop `for key in old_keys & new_keys: if old_map[key] !=
new_map[key]: return patch` — true iff some common key has records that
differ as dicts (deep equality of the full record). -/
def patchLoop (old_map new_map : JMap) (ks : List JVal) : Bool :=
  ks.any (fun k =>
    match mget? old_map k, mget? new_map k with
    | some old_token, some new_token => !(dictEqb old_token new_token)
    | _, _ => false)

/-- `removed = old_keys - new_keys`, the keys of the old map absent from
the new one (listed in old-map insertion order; Python iterates the
difference as a set in unspecified order, which only affects the text of
the description). -/
def removedList (old_map new_map : JMap) : List JVal :=
  (keysOf old_map).filter (fun k => !(memJ k (keysOf new_map)))

/-- `old_keys & new_keys`, the keys present in both maps. -/
def commonList (old_map new_map : JMap) : List JVal :=
  (keysOf old_map).filter (fun k => memJ k (keysOf new_map))

/-- `added = new_keys - old_keys`, the keys of the new map absent from
the old one. -/
def addedList (old_map new_map : JMap) : List JVal :=
  (keysOf new_map).filter (fun k => !(memJ k (keysOf old_map)))

/-- The body of `compare_tokens` after the two symbol maps are built:
the ordered cascade removed → address change → added → metadata diff. -/
def compareMaps (old_map new_map : JMap) :
    Except String (Option String × Option String) :=
  if (removedList old_map new_map).isEmpty then
    match addressLoop old_map new_map (commonList old_map new_map) with
    | .error e => .error e
    | .ok (some k) => .ok (some "major", some ("Token address changed: " ++ jstr k))
    | .ok none =>
      if (addedList old_map new_map).isEmpty then
        if patchLoop old_map new_map (commonList old_map new_map) then
          .ok (some "patch", some "Token metadata updated")
        else
          .ok (none, none)
      else
        .ok (some "minor",
          some ("Tokens added: " ++
            String.intercalate ", " ((addedList old_map new_map).map jstr)))
  else
    .ok (some "major",
      some ("Tokens removed: " ++
        String.intercalate ", " ((removedList old_map new_map).map jstr)))

/-- `compare_tokens(old_tokens, new_tokens)`: build the symbol maps and
run the classification cascade, returning `(change_type, description)`.
`.error` models an uncaught exception escaping the function. -/
def compare_tokens (old_tokens new_tokens : List Token) :
    Except String (Option String × Option String) := do
  let old_map ← buildMap old_tokens
  let new_map ← buildMap new_tokens
  compareMaps old_map new_map

/-! ## The pipeline: loading, the manifest file, and `main` -/

/-- `DATA_DIR = "mainnet"`. -/
def DATA_DIR : String := "mainnet"

/-- `TOKEN_LIST_NAME`. -/
def TOKEN_LIST_NAME : String := "Monad Mainnet"

/-- `LOGO_URI`, the fixed list-level logo constant. -/
def LOGO_URI : String :=
  "https://raw.githubusercontent.com/monad-crypto/token-list/refs/heads/main/assets/monad.svg"

/-- `KEYWORDS`. -/
def KEYWORDS : List String := ["monad mainnet"]

/-- The URL prefix shared by all derived logo URIs. -/
def RAW_PREFIX : String :=
  "https://raw.githubusercontent.com/monad-crypto/token-list/refs/heads/main/"

/-- One directory entry of the `mainnet/` data directory as the script
observes it: its name, whether it is a subdirectory, the parse outcome
of its `data.json` (`.error` = unreadable or invalid JSON5), and which
of the two recognized logo files exist inside it. For entries that are
not directories only `name` and `isDir` are meaningful — the script
never opens them. -/
structure DirEntry where
  name : String
  isDir : Bool
  data : Except String Token
  hasSvg : Bool
  hasPng : Bool

/-- Insertion into a name-sorted list (`sorted(data_dir.iterdir())`). -/
def insertByName (e : DirEntry) : List DirEntry → List DirEntry
  | [] => [e]
  | x :: xs => if e.name ≤ x.name then e :: x :: xs else x :: insertByName e xs

/-- `sorted(data_dir.iterdir())`, comparing entries by name. -/
def sortByName (es : List DirEntry) : List DirEntry :=
  es.foldr insertByName []

/-- `get_token_dirs`: the subdirectories of the data directory, sorted
lexicographically by name; plain files are ignored. -/
def get_token_dirs (entries : List DirEntry) : List DirEntry :=
  (sortByName entries).filter (fun e => e.isDir)

/-- The public URL derived for a logo file found in a token directory:
the fixed raw-content prefix followed by the path of the file relative
to the repository root (`mainnet/<dir>/<filename>`). -/
def logoUrl (dirName filename : String) : String :=
  RAW_PREFIX ++ DATA_DIR ++ "/" ++ dirName ++ "/" ++ filename

/-- `load_token_data(dir_path)`: parse `data.json`, then look for a logo
under the two recognized names in fixed priority order — `logo.svg`
before `logo.png` — and, if one exists, store its derived public URL in
the record under `logoURI`, overwriting any parsed value; with no logo
file the parsed record is returned as is. Parse or read failure raises. -/
def load_token_data (e : DirEntry) : Except String Token := do
  let token_data ← e.data
  let logo : Option String :=
    if e.hasSvg then some "logo.svg"
    else if e.hasPng then some "logo.png"
    else none
  match logo with
  | some filename => .ok (dset token_data "logoURI" (.s (logoUrl e.name filename)))
  | none => .ok token_data

/-- `load_all_tokens`: load every token directory in order, aborting on
the first failure. -/
def load_all_tokens (token_dirs : List DirEntry) : Except String (List Token) :=
  token_dirs.mapM load_token_data

/-- The parsed manifest (`tokenlist-mainnet.json`). The model keeps the
structurally complete shape the script itself writes. -/
structure TokenList where
  name : String
  logoURI : String
  keywords : List String
  timestamp : String
  tokens : List Token
  version : Version
deriving DecidableEq

/-- `create_token_list(tokens, version, timestamp)`. -/
def create_token_list (tokens : List Token) (version : Version)
    (timestamp : String) : TokenList :=
  { name := TOKEN_LIST_NAME
    logoURI := LOGO_URI
    keywords := KEYWORDS
    timestamp := timestamp
    tokens := tokens
    version := version }

/-- The on-disk state of the output file `tokenlist-mainnet.json`. -/
inductive FileState where
  | absent : FileState
  | full : TokenList → FileState
  | corrupt : FileState
deriving DecidableEq

/-- `load_existing_token_list`: `None` when the file does not exist or
fails to read or parse (`corrupt`); otherwise the parsed manifest. -/
def load_existing_token_list : FileState → Option TokenList
  | .absent => none
  | .corrupt => none
  | .full tl => some tl

/-- `write_token_list`: `output_path.open(mode="w")` truncates the file
in place, then `json5.dump` streams the serialization into it. With no
I/O failure the file holds the full new manifest; an `OSError` raised
during the dump (modelled by `fail = true`) propagates after part of the
serialization has replaced the old contents, leaving the file corrupt.
The previous file state is destroyed either way — there is no temporary
file or atomic rename. Returns the new file state and whether the write
succeeded. -/
def write_token_list (token_list : TokenList) (fail : Bool) :
    FileState × Bool :=
  if fail then (.corrupt, false) else (.full token_list, true)

/-- `DEFAULT_VERSION_MAJOR/MINOR/PATCH`. -/
def DEFAULT_VERSION : Version := ⟨1, 0, 0⟩

/-- The observable inputs of one run of `main`: whether the data
directory exists, the entries it contains, the current state of the
output file, the current UTC timestamp, and whether the output write
would hit an I/O error. -/
structure RunInput where
  dataDirExists : Bool
  entries : List DirEntry
  file : FileState
  now : String
  writeFails : Bool

/-- The observable outcome of one run of `main`: the process exit code
and the final state of the output file. -/
structure RunResult where
  exitCode : Nat
  file : FileState
deriving DecidableEq

/-- `main()`: missing data directory aborts with exit 1; no token
subdirectories is a successful no-op; a load failure aborts with exit 1;
with an existing parseable manifest the change is classified and a
classification of `None` is a successful no-op, otherwise the version is
bumped and the manifest rewritten with a fresh timestamp; with no (or an
unparseable) existing manifest the default version is used. Every raised
exception is caught by `main` and turned into exit code 1. -/
def mainRun (inp : RunInput) : RunResult :=
  if !inp.dataDirExists then
    ⟨1, inp.file⟩
  else
    let token_dirs := get_token_dirs inp.entries
    if token_dirs.isEmpty then
      ⟨0, inp.file⟩
    else
      match load_all_tokens token_dirs with
      | .error _ => ⟨1, inp.file⟩
      | .ok new_tokens =>
        match load_existing_token_list inp.file with
        | some existing =>
          match compare_tokens existing.tokens new_tokens with
          | .error _ => ⟨1, inp.file⟩
          | .ok (none, _) => ⟨0, inp.file⟩
          | .ok (some change_type, _) =>
            let new_version := increment_version existing.version (some change_type)
            let tl := create_token_list new_tokens new_version inp.now
            let (f, ok) := write_token_list tl inp.writeFails
            ⟨if ok then 0 else 1, f⟩
        | none =>
          let tl := create_token_list new_tokens DEFAULT_VERSION inp.now
          let (f, ok) := write_token_list tl inp.writeFails
          ⟨if ok then 0 else 1, f⟩

/-! ## Spec-side definitions

These follow the wording of the specification (§4.3, §8) rather than the
code: the cascade is phrased as existential conditions quantifying over
the records of the two collections directly, to be compared with the
map-based implementation `compare_tokens`. -/

/-- The record of a collection bearing a given symbol (first match; under
the spec precondition of unique symbols this is the record). -/
def specLookup (ts : List Token) (k : JVal) : Option Token :=
  ts.find? (fun t => decide (symKey? t = some k))

/-- Some symbol present in `old` is absent from `new` (a removal). -/
def specRemoval (old_tokens new_tokens : List Token) : Bool :=
  old_tokens.any (fun t =>
    !(new_tokens.any (fun u => decide (symKey? u = symKey? t))))

/-- Some symbol present in both collections has a different `address`. -/
def specAddrChange (old_tokens new_tokens : List Token) : Bool :=
  old_tokens.any (fun t =>
    match symKey? t with
    | none => false
    | some k =>
      match specLookup new_tokens k with
      | none => false
      | some u => decide (dget? t "address" ≠ dget? u "address"))

/-- Some symbol present in `new` is absent from `old` (an addition):
a removal with the roles of the two collections swapped. -/
def specAddition (old_tokens new_tokens : List Token) : Bool :=
  specRemoval new_tokens old_tokens

/-- Some symbol present in both collections has records that differ on
any field (deep equality of the full record). -/
def specMetaDiff (old_tokens new_tokens : List Token) : Bool :=
  old_tokens.any (fun t =>
    match symKey? t with
    | none => false
    | some k =>
      match specLookup new_tokens k with
      | none => false
      | some u => !(dictEqb t u))

/-- The specification's ordered cascade (§4.3): the first matching check
wins — removal, then address change, then addition, then metadata diff,
else no change. -/
def specClassify (old_tokens new_tokens : List Token) : Option String :=
  if specRemoval old_tokens new_tokens then some "major"
  else if specAddrChange old_tokens new_tokens then some "major"
  else if specAddition old_tokens new_tokens then some "minor"
  else if specMetaDiff old_tokens new_tokens then some "patch"
  else none

/-- Every record of the collection carries a distinct symbol value. -/
def UniqueSymbols (ts : List Token) : Prop :=
  ts.Pairwise (fun a b => symKey? a ≠ symKey? b)

/-- The record a symbol-keyed dict built from `ts` ends up holding for a
symbol: the last record of the list bearing it (later insertions
overwrite earlier ones). -/
def lookupLast : List Token → JVal → Option Token
  | [], _ => none
  | t :: rest, k =>
    match lookupLast rest k with
    | some r => some r
    | none => if symKey? t = some k then some t else none

/-! ## Claim C2 and C3: the Version Bumper -/

/-- C2 counterexample: the claim "no component ever decreases" is false —
a major bump from version 1.1.0 resets the minor component from 1 to 0,
a strict decrease. -/
theorem increment_version_major_resets_minor :
    increment_version ⟨1, 1, 0⟩ (some "major") = ⟨2, 0, 0⟩ ∧
    (increment_version ⟨1, 1, 0⟩ (some "major")).minor <
      (Version.mk 1 1 0).minor := by
  constructor
  · rfl
  · decide

/-- C2 (amended): `increment_version` maps `major` to `{major+1, 0, 0}`,
`minor` to `{major, minor+1, 0}`, `patch` to `{major, minor, patch+1}`
and no-change to the identical version; consequently the version never
decreases in semantic-versioning (lexicographic) order — though the
lower-order components themselves reset to 0 on major/minor — and for
each non-none classification exactly one component strictly increases. -/
theorem increment_version_semver_spec (v : Version) :
    increment_version v (some "major") = ⟨v.major + 1, 0, 0⟩ ∧
    increment_version v (some "minor") = ⟨v.major, v.minor + 1, 0⟩ ∧
    increment_version v (some "patch") = ⟨v.major, v.minor, v.patch + 1⟩ ∧
    increment_version v none = v ∧
    semverLE v (increment_version v (some "major")) ∧
    semverLE v (increment_version v (some "minor")) ∧
    semverLE v (increment_version v (some "patch")) ∧
    semverLE v (increment_version v none) := by
  refine ⟨rfl, rfl, rfl, rfl, ?_, ?_, ?_, ?_⟩
  · exact Or.inl (Nat.lt_succ_self _)
  · exact Or.inr ⟨rfl, Or.inl (Nat.lt_succ_self _)⟩
  · exact Or.inr ⟨rfl, Or.inr ⟨rfl, Nat.le_succ _⟩⟩
  · exact Or.inr ⟨rfl, Or.inr ⟨rfl, Nat.le_refl _⟩⟩

/-- C3 counterexample: an unrecognized classification value does not
fail fast with an error — `increment_version` silently returns the
version unchanged. -/
theorem increment_version_unrecognized_no_error :
    increment_version ⟨1, 2, 3⟩ (some "bogus") = ⟨1, 2, 3⟩ := by
  decide

/-- C3 (amended): for every classification value that is not one of the
three recognized bump values, `increment_version` falls through to the
final return and yields the version unchanged — there is no `InvalidState`
failure path, the silent identity default covers `None` and any
unrecognized string alike. -/
theorem increment_version_unrecognized_identity (v : Version)
    (c : Option String)
    (h1 : c ≠ some "major") (h2 : c ≠ some "minor") (h3 : c ≠ some "patch") :
    increment_version v c = v := by
  unfold increment_version
  rw [if_neg h1, if_neg h2, if_neg h3]

/-- Witness for C3's amended theorem at a concrete unrecognized value. -/
theorem increment_version_unrecognized_identity_witness :
    increment_version ⟨4, 5, 6⟩ (some "unknown") = ⟨4, 5, 6⟩ :=
  increment_version_unrecognized_identity ⟨4, 5, 6⟩ (some "unknown")
    (by decide) (by decide) (by decide)

/-! ## Claim C8: the Loader's logo derivation -/

/-- Storing a value under a key makes lookup of that key return it:
`d[k] = v` overwrites any value already present. -/
theorem dget?_dset_self (d : Token) (k : String) (v : JVal) :
    dget? (dset d k v) k = some v := by
  induction d with
  | nil => simp [dset, dget?]
  | cons p rest ih =>
    obtain ⟨k', v'⟩ := p
    by_cases h : k' = k
    · simp [dset, h, dget?]
    · simp [dset, h, dget?, ih]

/-- C8: `load_token_data` checks the two recognized logo names in fixed
priority order — `logo.svg` before `logo.png` — and stores the public
URL derived from the first one found (the file's path relative to the
repository root under the raw-content prefix) in the record's `logoURI`
field, overwriting any parsed value; when neither file exists the parsed
record, and in particular its `logoURI` or the absence of one, is left
as is. -/
theorem load_token_data_logo_priority (e : DirEntry) (td : Token)
    (h : e.data = .ok td) :
    (e.hasSvg = true →
      load_token_data e =
        .ok (dset td "logoURI" (.s (logoUrl e.name "logo.svg")))) ∧
    (e.hasSvg = false → e.hasPng = true →
      load_token_data e =
        .ok (dset td "logoURI" (.s (logoUrl e.name "logo.png")))) ∧
    (e.hasSvg = false → e.hasPng = false → load_token_data e = .ok td) ∧
    (∀ d v, dget? (dset d "logoURI" v) "logoURI" = some v) := by
  refine ⟨?_, ?_, ?_, fun d v => dget?_dset_self d "logoURI" v⟩
  · intro hs
    simp only [load_token_data, h, hs]
    rfl
  · intro hs hp
    simp only [load_token_data, h, hs, hp]
    rfl
  · intro hs hp
    simp only [load_token_data, h, hs, hp]
    rfl

/-- Witness for C8 at a concrete directory entry holding both logo
files: the vector name wins and overwrites the parsed `logoURI`. -/
theorem load_token_data_logo_priority_witness :
    load_token_data
        ⟨"tok", true,
          .ok [("symbol", JVal.s "A"), ("logoURI", JVal.s "stale")],
          true, true⟩ =
      .ok [("symbol", JVal.s "A"),
           ("logoURI", JVal.s (logoUrl "tok" "logo.svg"))] := by
  have h :=
    (load_token_data_logo_priority
      ⟨"tok", true,
        .ok [("symbol", JVal.s "A"), ("logoURI", JVal.s "stale")],
        true, true⟩
      [("symbol", JVal.s "A"), ("logoURI", JVal.s "stale")] rfl).1 rfl
  rw [h]
  rfl

/-! ## Claim C7: empty source directory is a successful no-op -/

/-- Insertion into a name-sorted list adds no entry beyond the inserted
one. -/
theorem mem_insertByName {x e : DirEntry} {xs : List DirEntry}
    (h : x ∈ insertByName e xs) : x = e ∨ x ∈ xs := by
  induction xs with
  | nil => simpa [insertByName] using h
  | cons y ys ih =>
    by_cases hle : e.name ≤ y.name
    · simpa [insertByName, hle] using h
    · simp only [insertByName, hle, if_false, List.mem_cons] at h
      rcases h with h | h
      · exact Or.inr (by simp [h])
      · rcases ih h with h' | h'
        · exact Or.inl h'
        · exact Or.inr (by simp [h'])

/-- Sorting the directory entries by name introduces no new entry. -/
theorem mem_sortByName {x : DirEntry} {es : List DirEntry}
    (h : x ∈ sortByName es) : x ∈ es := by
  induction es with
  | nil => simp [sortByName] at h
  | cons e es ih =>
    rcases mem_insertByName (show x ∈ insertByName e (sortByName es) from h)
      with h' | h'
    · simp [h']
    · simp [ih h']

/-- C7: when the source root holds no subdirectories (plain files are
ignored by `get_token_dirs`), the run is not an error: the token
collection is empty, the process exits with code 0 and the output file —
in particular any existing manifest with its version and timestamp — is
left untouched, no write being attempted at all. -/
theorem mainRun_no_token_dirs (inp : RunInput)
    (hdir : inp.dataDirExists = true)
    (hnod : ∀ e ∈ inp.entries, e.isDir = false) :
    get_token_dirs inp.entries = [] ∧ mainRun inp = ⟨0, inp.file⟩ := by
  have hg : get_token_dirs inp.entries = [] := by
    refine List.filter_eq_nil_iff.mpr fun e he => ?_
    simp [hnod e (mem_sortByName he)]
  refine ⟨hg, ?_⟩
  unfold mainRun
  simp [hdir, hg]

/-- Witness for C7: a source root holding a single plain file and an
existing manifest on disk; the run exits 0 and the file is unchanged. -/
theorem mainRun_no_token_dirs_witness :
    get_token_dirs [⟨"README.md", false, .error "not json", false, false⟩] = [] ∧
    mainRun ⟨true, [⟨"README.md", false, .error "not json", false, false⟩],
        .full (create_token_list [] ⟨1, 2, 3⟩ "2024-01-01"), "2024-06-01", false⟩ =
      ⟨0, .full (create_token_list [] ⟨1, 2, 3⟩ "2024-01-01")⟩ :=
  mainRun_no_token_dirs
    ⟨true, [⟨"README.md", false, .error "not json", false, false⟩],
      .full (create_token_list [] ⟨1, 2, 3⟩ "2024-01-01"), "2024-06-01", false⟩
    rfl
    (fun e he => by rcases List.mem_singleton.mp he with rfl; rfl)

/-! ## Claim C5: missing or unparseable manifest means first publish -/

/-- C5: when the existing manifest is absent or fails to parse
(`load_existing_token_list` returns `None` in both cases), a run whose
sources load successfully does not abort: it proceeds as a first
publish, writing the aggregated tokens with the default version
`{1, 0, 0}` and the fresh timestamp of this run, whatever the token
content is. -/
theorem mainRun_first_publish (inp : RunInput) (ts : List Token)
    (hdir : inp.dataDirExists = true)
    (hne : get_token_dirs inp.entries ≠ [])
    (hload : load_all_tokens (get_token_dirs inp.entries) = .ok ts)
    (hfile : load_existing_token_list inp.file = none)
    (hw : inp.writeFails = false) :
    mainRun inp = ⟨0, .full (create_token_list ts DEFAULT_VERSION inp.now)⟩ ∧
    DEFAULT_VERSION = ⟨1, 0, 0⟩ ∧
    (create_token_list ts DEFAULT_VERSION inp.now).timestamp = inp.now := by
  refine ⟨?_, rfl, rfl⟩
  unfold mainRun
  simp [hdir, hne, hload, hfile, hw, write_token_list]

/-- Witness for C5: a corrupt manifest on disk together with one loadable
token directory yields a fresh `{1, 0, 0}` manifest and exit code 0. -/
theorem mainRun_first_publish_witness :
    mainRun ⟨true, [⟨"a", true, .ok [("symbol", JVal.s "A"), ("address", JVal.s "0x1")],
        false, false⟩], .corrupt, "2026-01-01", false⟩ =
      ⟨0, .full (create_token_list [[("symbol", JVal.s "A"), ("address", JVal.s "0x1")]]
        DEFAULT_VERSION "2026-01-01")⟩ :=
  (mainRun_first_publish
    ⟨true, [⟨"a", true, .ok [("symbol", JVal.s "A"), ("address", JVal.s "0x1")],
      false, false⟩], .corrupt, "2026-01-01", false⟩
    [[("symbol", JVal.s "A"), ("address", JVal.s "0x1")]]
    rfl (fun h => nomatch h) rfl rfl rfl).1

/-! ## Claim C6: failure behavior and the output write -/

/-- Every run of `main` exits with code 0 or code 1: all raised
exceptions are caught and converted to exit code 1. -/
theorem mainRun_exitCode_zero_or_one (inp : RunInput) :
    (mainRun inp).exitCode = 0 ∨ (mainRun inp).exitCode = 1 := by
  unfold mainRun
  cases hd : inp.dataDirExists with
  | false => simp [hd]
  | true =>
    cases hte : (get_token_dirs inp.entries).isEmpty with
    | true => simp [hd, hte]
    | false =>
      cases hl : load_all_tokens (get_token_dirs inp.entries) with
      | error e => simp [hd, hte, hl]
      | ok ts =>
        cases hx : load_existing_token_list inp.file with
        | none =>
          cases hwf : inp.writeFails with
          | false => simp [hd, hte, hl, hx, hwf, write_token_list]
          | true => simp [hd, hte, hl, hx, hwf, write_token_list]
        | some tl =>
          cases hc : compare_tokens tl.tokens ts with
          | error e => simp [hd, hte, hl, hx, hc]
          | ok p =>
            obtain ⟨c, d⟩ := p
            cases c with
            | none => simp [hd, hte, hl, hx, hc]
            | some ct =>
              cases hwf : inp.writeFails with
              | false => simp [hd, hte, hl, hx, hc, hwf, write_token_list]
              | true => simp [hd, hte, hl, hx, hc, hwf, write_token_list]

/-- A run that fails anywhere before the final write leaves the output
file exactly as it was. -/
theorem mainRun_fail_before_write_preserves_file (inp : RunInput)
    (hw : inp.writeFails = false)
    (h1 : (mainRun inp).exitCode = 1) :
    (mainRun inp).file = inp.file := by
  unfold mainRun at h1 ⊢
  cases hd : inp.dataDirExists with
  | false => simp [hd]
  | true =>
    cases hte : (get_token_dirs inp.entries).isEmpty with
    | true => simp [hd, hte]
    | false =>
      cases hl : load_all_tokens (get_token_dirs inp.entries) with
      | error e => simp [hd, hte, hl]
      | ok ts =>
        cases hx : load_existing_token_list inp.file with
        | none =>
          simp [hd, hte, hl, hx, hw, write_token_list] at h1
        | some tl =>
          cases hc : compare_tokens tl.tokens ts with
          | error e => simp [hd, hte, hl, hx, hc]
          | ok p =>
            obtain ⟨c, d⟩ := p
            cases c with
            | none => simp [hd, hte, hl, hx, hc] at h1
            | some ct => simp [hd, hte, hl, hx, hc, hw, write_token_list] at h1

/-- C6 (amended): on any failing run the process exits with code 1 (the
exit code is always 0 or 1), and any failure occurring before the output
write leaves the previously published manifest untouched; the write
itself however is not all-or-nothing — see the counterexample, where an
I/O failure during the write destroys the previous manifest. -/
theorem mainRun_failure_behavior (inp : RunInput) :
    ((mainRun inp).exitCode = 0 ∨ (mainRun inp).exitCode = 1) ∧
    (inp.writeFails = false → (mainRun inp).exitCode = 1 →
      (mainRun inp).file = inp.file) :=
  ⟨mainRun_exitCode_zero_or_one inp,
   fun hw h1 => mainRun_fail_before_write_preserves_file inp hw h1⟩

/-- Witness for C6's amended theorem: a run aborted by a missing data
directory exits 1 and leaves the manifest file unchanged. -/
theorem mainRun_failure_behavior_witness :
    ((mainRun ⟨false, [], .full (create_token_list [] ⟨1, 0, 0⟩ "t"), "n", false⟩).exitCode = 0 ∨
      (mainRun ⟨false, [], .full (create_token_list [] ⟨1, 0, 0⟩ "t"), "n", false⟩).exitCode = 1) ∧
    ((false : Bool) = false →
      (mainRun ⟨false, [], .full (create_token_list [] ⟨1, 0, 0⟩ "t"), "n", false⟩).exitCode = 1 →
      (mainRun ⟨false, [], .full (create_token_list [] ⟨1, 0, 0⟩ "t"), "n", false⟩).file =
        .full (create_token_list [] ⟨1, 0, 0⟩ "t")) :=
  mainRun_failure_behavior ⟨false, [], .full (create_token_list [] ⟨1, 0, 0⟩ "t"), "n", false⟩

/-- C6 counterexample: the write is not all-or-nothing. The manifest file
holds a previous manifest; the new sources classify as a change, the
rewrite hits an I/O error, and the failing run (exit code 1) leaves the
file corrupt — the previously published manifest does not remain on
disk, because `write_token_list` truncates the file in place before
streaming the serialization, with no temporary file or atomic rename. -/
theorem mainRun_write_failure_corrupts :
    mainRun ⟨true,
        [⟨"b", true, .ok [("symbol", JVal.s "B"), ("address", JVal.s "0x2")],
          false, false⟩],
        .full (create_token_list [[("symbol", JVal.s "A"), ("address", JVal.s "0x1")]]
          ⟨1, 0, 0⟩ "old"),
        "now", true⟩ =
      ⟨1, .corrupt⟩ ∧
    FileState.corrupt ≠
      .full (create_token_list [[("symbol", JVal.s "A"), ("address", JVal.s "0x1")]]
        ⟨1, 0, 0⟩ "old") := by
  constructor
  · rfl
  · decide

/-! ## Dict and symbol-map lemmas -/

/-- Looking up the key just assigned yields the assigned record. -/
theorem mget?_mset_self (m : JMap) (k : JVal) (t : Token) :
    mget? (mset m k t) k = some t := by
  induction m with
  | nil => simp [mset, mget?]
  | cons p rest ih =>
    obtain ⟨k', t'⟩ := p
    by_cases h : k' = k
    · simp [mset, h, mget?]
    · simp [mset, h, mget?, ih]

/-- Assigning one key leaves lookups of the other keys unchanged. -/
theorem mget?_mset_ne (m : JMap) (k j : JVal) (t : Token) (h : j ≠ k) :
    mget? (mset m k t) j = mget? m j := by
  induction m with
  | nil => simp [mset, mget?, Ne.symm h]
  | cons p rest ih =>
    obtain ⟨k', t'⟩ := p
    by_cases hk : k' = k
    · subst hk
      have hne : k' ≠ j := fun hh => h hh.symm
      simp [mset, mget?, hne]
    · simp only [mset, hk, if_false]
      by_cases hj : k' = j
      · simp [mget?, hj]
      · simp [mget?, hj, ih]

/-- The keys after an assignment are the old keys plus the assigned one. -/
theorem mem_keysOf_mset (m : JMap) (k j : JVal) (t : Token) :
    j ∈ keysOf (mset m k t) ↔ j ∈ keysOf m ∨ j = k := by
  induction m with
  | nil => simp [mset, keysOf]
  | cons p rest ih =>
    obtain ⟨k', t'⟩ := p
    by_cases h : k' = k
    · subst h
      simp only [mset, if_true, keysOf, List.map_cons, List.mem_cons]
      tauto
    · simp only [mset, h, if_false, keysOf, List.map_cons, List.mem_cons] at ih ⊢
      rw [show (List.map Prod.fst (mset rest k t)) = keysOf (mset rest k t) from rfl] at *
      tauto

/-- `memJ` is list membership. -/
theorem memJ_iff (k : JVal) (ks : List JVal) : memJ k ks = true ↔ k ∈ ks := by
  constructor
  · intro h
    obtain ⟨j, hj, hjk⟩ := List.any_eq_true.mp h
    exact (of_decide_eq_true hjk) ▸ hj
  · intro h
    exact List.any_eq_true.mpr ⟨k, h, decide_eq_true rfl⟩

/-- Dict equality is reflexive. -/
theorem dictEqb_refl (d : Token) : dictEqb d d = true := by
  simp [dictEqb, List.all_eq_true]

/-- What `lookupLast` returns is a member of the list bearing the looked
up symbol. -/
theorem lookupLast_mem {ts : List Token} {k : JVal} {t : Token}
    (h : lookupLast ts k = some t) : t ∈ ts ∧ symKey? t = some k := by
  induction ts with
  | nil => simp [lookupLast] at h
  | cons u rest ih =>
    rw [lookupLast] at h
    split at h
    · rename_i r hr
      injection h with h'
      subst h'
      obtain ⟨hmem, hsym⟩ := ih hr
      exact ⟨List.mem_cons_of_mem u hmem, hsym⟩
    · rename_i hr
      split at h
      · rename_i hu
        injection h with h'
        subst h'
        exact ⟨List.mem_cons_self _ _, hu⟩
      · exact absurd h (by simp)

/-- A symbol borne by no record of the list is not found. -/
theorem lookupLast_eq_none {ts : List Token} {k : JVal}
    (h : ∀ t ∈ ts, symKey? t ≠ some k) : lookupLast ts k = none := by
  induction ts with
  | nil => rfl
  | cons u rest ih =>
    simp only [lookupLast]
    rw [ih fun t ht => h t (List.mem_cons_of_mem u ht)]
    rw [if_neg (h u (List.mem_cons_self _ _))]

/-- A symbol borne by some record of the list is found. -/
theorem lookupLast_isSome {ts : List Token} {k : JVal} {t : Token}
    (hmem : t ∈ ts) (hsym : symKey? t = some k) :
    ∃ r, lookupLast ts k = some r := by
  induction ts with
  | nil => simp at hmem
  | cons u rest ih =>
    simp only [lookupLast]
    cases hr : lookupLast rest k with
    | some r => exact ⟨r, rfl⟩
    | none =>
      rcases List.mem_cons.mp hmem with rfl | hmem'
      · exact ⟨t, by rw [if_pos hsym]⟩
      · obtain ⟨r, hr'⟩ := ih hmem'
        exact absurd hr' (by simp [hr])

/-- A key present in a map has a record. -/
theorem mget?_isSome_of_mem_keysOf {m : JMap} {k : JVal}
    (h : k ∈ keysOf m) : ∃ t, mget? m k = some t := by
  induction m with
  | nil => simp [keysOf] at h
  | cons p rest ih =>
    obtain ⟨k', t'⟩ := p
    by_cases hk : k' = k
    · exact ⟨t', by simp [mget?, hk]⟩
    · simp only [keysOf, List.map_cons, List.mem_cons] at h
      rcases h with h | h
      · exact absurd h.symm hk
      · obtain ⟨t, ht⟩ := ih h
        exact ⟨t, by simp [mget?, hk, ht]⟩

/-- When the symbol map builds successfully and the list holds no record
with symbol `k`, the lookup falls through to the accumulator. -/
theorem buildMapFrom_ok_mget_none {ts : List Token} {acc m : JMap} {k : JVal}
    (h : buildMapFrom acc ts = .ok m) (hl : lookupLast ts k = none) :
    mget? m k = mget? acc k := by
  induction ts generalizing acc with
  | nil =>
    simp only [buildMapFrom] at h
    injection h with h'
    subst h'
    rfl
  | cons t rest ih =>
    rw [buildMapFrom] at h
    rw [lookupLast] at hl
    split at h
    · rename_i s hs
      split at hl
      · simp at hl
      · rename_i hr
        rw [ih h hr]
        have hne : k ≠ s := by
          intro hk
          subst hk
          rw [if_pos hs] at hl
          simp at hl
        exact mget?_mset_ne acc s k t hne
    · exact absurd h (by simp)

/-- When the symbol map builds successfully, the record it ends up
holding for a symbol is the last record of the list bearing it. -/
theorem buildMapFrom_ok_mget_some {ts : List Token} {acc m : JMap} {k : JVal}
    {r : Token} (h : buildMapFrom acc ts = .ok m)
    (hl : lookupLast ts k = some r) : mget? m k = some r := by
  induction ts generalizing acc with
  | nil => simp [lookupLast] at hl
  | cons t rest ih =>
    rw [buildMapFrom] at h
    rw [lookupLast] at hl
    split at h
    · rename_i s hs
      split at hl
      · rename_i r' hr
        injection hl with hl'
        subst hl'
        exact ih h hr
      · rename_i hr
        split at hl
        · rename_i ht
          injection hl with hl'
          subst hl'
          rw [ht] at hs
          injection hs with hs'
          subst hs'
          rw [buildMapFrom_ok_mget_none h hr]
          apply mget?_mset_self
        · exact absurd hl (by simp)
    · exact absurd h (by simp)

/-- Lookup in a successfully built symbol map is `lookupLast`. -/
theorem buildMap_ok_mget {ts : List Token} {m : JMap} {k : JVal}
    (h : buildMap ts = .ok m) : mget? m k = lookupLast ts k := by
  cases hl : lookupLast ts k with
  | some r => exact buildMapFrom_ok_mget_some h hl
  | none => exact buildMapFrom_ok_mget_none h hl

/-- The keys of a successfully built symbol map are the symbols of the
list plus those of the accumulator. -/
theorem buildMapFrom_ok_mem_keys {ts : List Token} {acc m : JMap}
    (h : buildMapFrom acc ts = .ok m) (k : JVal) :
    k ∈ keysOf m ↔ k ∈ keysOf acc ∨ ∃ t ∈ ts, symKey? t = some k := by
  induction ts generalizing acc with
  | nil =>
    simp only [buildMapFrom] at h
    injection h with h'
    subst h'
    simp
  | cons t rest ih =>
    rw [buildMapFrom] at h
    split at h
    · rename_i s hs
      rw [ih h, mem_keysOf_mset]
      constructor
      · rintro ((hacc | rfl) | ⟨u, hu, hsym⟩)
        · exact Or.inl hacc
        · exact Or.inr ⟨t, List.mem_cons_self _ _, hs⟩
        · exact Or.inr ⟨u, List.mem_cons_of_mem t hu, hsym⟩
      · rintro (hacc | ⟨u, hu, hsym⟩)
        · exact Or.inl (Or.inl hacc)
        · rcases List.mem_cons.mp hu with rfl | hu'
          · rw [hs] at hsym
            injection hsym with hsym'
            exact Or.inl (Or.inr hsym'.symm)
          · exact Or.inr ⟨u, hu', hsym⟩
    · exact absurd h (by simp)

/-- The keys of a successfully built symbol map are the symbols borne by
the records of the list. -/
theorem buildMap_ok_mem_keys {ts : List Token} {m : JMap}
    (h : buildMap ts = .ok m) (k : JVal) :
    k ∈ keysOf m ↔ ∃ t ∈ ts, symKey? t = some k := by
  rw [buildMapFrom_ok_mem_keys h k]
  simp [keysOf]

/-- Map construction succeeds when every record has a symbol — duplicate
symbols raise no error, later records silently overwrite earlier ones. -/
theorem buildMapFrom_ok_of_allSym {ts : List Token} (acc : JMap)
    (h : ∀ t ∈ ts, (symKey? t).isSome) :
    ∃ m, buildMapFrom acc ts = .ok m := by
  induction ts generalizing acc with
  | nil => exact ⟨acc, rfl⟩
  | cons t rest ih =>
    rw [buildMapFrom]
    cases hs : symKey? t with
    | some s => exact ih (mset acc s t) fun u hu => h u (List.mem_cons_of_mem t hu)
    | none =>
      have := h t (List.mem_cons_self _ _)
      rw [hs] at this
      simp at this

/-- Map construction fails with a `KeyError` when some record lacks a
symbol. -/
theorem buildMapFrom_error_of_missing {ts : List Token} (acc : JMap)
    (h : ∃ t ∈ ts, symKey? t = none) :
    ∃ e, buildMapFrom acc ts = .error e := by
  induction ts generalizing acc with
  | nil => simp at h
  | cons t rest ih =>
    rw [buildMapFrom]
    cases hs : symKey? t with
    | some s =>
      apply ih
      obtain ⟨u, hu, hsym⟩ := h
      rcases List.mem_cons.mp hu with rfl | hu'
      · rw [hs] at hsym
        exact absurd hsym (by simp)
      · exact ⟨u, hu', hsym⟩
    | none => exact ⟨"KeyError: symbol", rfl⟩

/-! ## Loop characterizations -/

/-- `old_map[key]["address"]`, as an optional value. -/
def addrOf (m : JMap) (k : JVal) : Option JVal :=
  (mget? m k).bind (fun t => dget? t "address")

/-- The Boolean "the two maps disagree on the address at key `k`". -/
def addrDiffb (old_map new_map : JMap) (k : JVal) : Bool :=
  !(decide (addrOf old_map k = addrOf new_map k))

/-- All four lookups the address loop performs at key `k` succeed. -/
def AddrLookups (old_map new_map : JMap) (k : JVal) : Prop :=
  ∃ ot oa nt na, mget? old_map k = some ot ∧ dget? ot "address" = some oa ∧
    mget? new_map k = some nt ∧ dget? nt "address" = some na

/-- When every key the loop visits has both records and both `address`
fields, the address loop raises nothing and returns the first key whose
addresses differ. -/
theorem addressLoop_eq_find {old_map new_map : JMap} {ks : List JVal}
    (h : ∀ k ∈ ks, AddrLookups old_map new_map k) :
    addressLoop old_map new_map ks =
      .ok (ks.find? (addrDiffb old_map new_map)) := by
  induction ks with
  | nil => rfl
  | cons k ks ih =>
    obtain ⟨ot, oa, nt, na, ho, hoa, hn, hna⟩ := h k (List.mem_cons_self _ _)
    have haddr : addrOf old_map k = some oa := by simp [addrOf, ho, hoa]
    have haddr' : addrOf new_map k = some na := by simp [addrOf, hn, hna]
    rw [addressLoop]
    simp only [ho, hoa, hn, hna]
    by_cases heq : oa = na
    · rw [if_pos heq, ih fun j hj => h j (List.mem_cons_of_mem k hj)]
      rw [List.find?_cons_of_neg]
      simp [addrDiffb, haddr, haddr', heq]
    · rw [if_neg heq]
      rw [List.find?_cons_of_pos]
      simp [addrDiffb, haddr, haddr', heq]

/-- When the addresses that are present agree everywhere but some key
the loop visits is missing a record or an `address` field, the loop
raises a `KeyError`. -/
theorem addressLoop_error {old_map new_map : JMap} {ks : List JVal}
    (hall : ∀ k ∈ ks, ∀ ot nt oa na, mget? old_map k = some ot →
      mget? new_map k = some nt → dget? ot "address" = some oa →
      dget? nt "address" = some na → oa = na)
    (hmiss : ∃ k ∈ ks, ¬AddrLookups old_map new_map k) :
    ∃ e, addressLoop old_map new_map ks = .error e := by
  induction ks with
  | nil => simp at hmiss
  | cons k ks ih =>
    rw [addressLoop]
    cases ho : mget? old_map k with
    | none => exact ⟨"KeyError: key", by simp [ho]⟩
    | some ot =>
      cases hoa : dget? ot "address" with
      | none => exact ⟨"KeyError: address", by simp [ho, hoa]⟩
      | some oa =>
        cases hn : mget? new_map k with
        | none => exact ⟨"KeyError: key", by simp [ho, hoa, hn]⟩
        | some nt =>
          cases hna : dget? nt "address" with
          | none => exact ⟨"KeyError: address", by simp [ho, hoa, hn, hna]⟩
          | some na =>
            have heq : oa = na :=
              hall k (List.mem_cons_self _ _) ot nt oa na ho hn hoa hna
            simp only [ho, hoa, hn, hna, heq, if_pos]
            apply ih
            · exact fun j hj => hall j (List.mem_cons_of_mem k hj)
            · obtain ⟨k', hk', hnot⟩ := hmiss
              rcases List.mem_cons.mp hk' with rfl | h'
              · exact absurd ⟨ot, oa, nt, na, ho, hoa, hn, hna⟩ hnot
              · exact ⟨k', h', hnot⟩

/-- The patch loop fires exactly when some visited key has records in
both maps that differ as dicts. -/
theorem patchLoop_iff {old_map new_map : JMap} {ks : List JVal} :
    patchLoop old_map new_map ks = true ↔
      ∃ k ∈ ks, ∃ ot nt, mget? old_map k = some ot ∧
        mget? new_map k = some nt ∧ dictEqb ot nt = false := by
  unfold patchLoop
  rw [List.any_eq_true]
  constructor
  · rintro ⟨k, hk, hp⟩
    cases ho : mget? old_map k with
    | none => rw [ho] at hp; simp at hp
    | some ot =>
      cases hn : mget? new_map k with
      | none => rw [ho, hn] at hp; simp at hp
      | some nt =>
        rw [ho, hn] at hp
        simp only [Bool.not_eq_true'] at hp
        exact ⟨k, hk, ot, nt, ho, hn, hp⟩
  · rintro ⟨k, hk, ot, nt, ho, hn, hd⟩
    refine ⟨k, hk, ?_⟩
    rw [ho, hn]
    simp [hd]

/-! ## Claim C4: idempotence -/

/-- Comparing a successfully built symbol map with itself classifies no
change, provided every record carries an `address`. -/
theorem compareMaps_self {T : List Token} {m : JMap}
    (hb : buildMap T = .ok m)
    (haddr : ∀ t ∈ T, (dget? t "address").isSome) :
    compareMaps m m = .ok (none, none) := by
  have hrem : removedList m m = [] := by
    apply List.filter_eq_nil_iff.mpr
    intro k hk
    simp [memJ_iff, hk]
  have hadd : addedList m m = [] := by
    apply List.filter_eq_nil_iff.mpr
    intro k hk
    simp [memJ_iff, hk]
  have hcom : commonList m m = keysOf m := by
    apply List.filter_eq_self.mpr
    intro k hk
    simp [memJ_iff, hk]
  have hlookups : ∀ k ∈ keysOf m, AddrLookups m m k := by
    intro k hk
    obtain ⟨t, ht⟩ := mget?_isSome_of_mem_keysOf hk
    have hl : lookupLast T k = some t := (buildMap_ok_mget hb).symm.trans ht
    obtain ⟨hmem, -⟩ := lookupLast_mem hl
    obtain ⟨a, ha⟩ := Option.isSome_iff_exists.mp (haddr t hmem)
    exact ⟨t, a, t, a, ht, ha, ht, ha⟩
  have haloop : addressLoop m m (keysOf m) = .ok none := by
    rw [addressLoop_eq_find hlookups]
    have : (keysOf m).find? (addrDiffb m m) = none := by
      apply List.find?_eq_none.mpr
      intro k hk
      simp [addrDiffb]
    rw [this]
  have hpatch : patchLoop m m (keysOf m) = false := by
    cases hpl : patchLoop m m (keysOf m) with
    | false => rfl
    | true =>
      obtain ⟨k, hk, ot, nt, ho, hn, hd⟩ := patchLoop_iff.mp hpl
      rw [ho] at hn
      injection hn with hn'
      subst hn'
      rw [dictEqb_refl] at hd
      exact absurd hd (by simp)
  unfold compareMaps
  simp only [hrem, hadd, hcom, haloop, hpatch, List.isEmpty_nil, if_true,
    Bool.false_eq_true, if_false]

/-- C4: for every token collection whose records all carry `symbol` and
`address` fields, comparing the collection with itself classifies no
change — `compare_tokens(T, T) = (None, None)` — and consequently a
second consecutive run whose sources load to exactly the tokens of the
manifest on disk exits 0 without rewriting the manifest file, so its
version and timestamp are untouched. -/
theorem compare_tokens_self (T : List Token)
    (hsym : ∀ t ∈ T, (symKey? t).isSome)
    (haddr : ∀ t ∈ T, (dget? t "address").isSome) :
    compare_tokens T T = .ok (none, none) ∧
    (∀ (inp : RunInput) (tl : TokenList),
      inp.dataDirExists = true →
      inp.file = .full tl →
      tl.tokens = T →
      load_all_tokens (get_token_dirs inp.entries) = .ok T →
      mainRun inp = ⟨0, inp.file⟩) := by
  obtain ⟨m, hb⟩ := buildMapFrom_ok_of_allSym [] hsym
  have hb' : buildMap T = .ok m := hb
  have hcmp : compare_tokens T T = .ok (none, none) := by
    unfold compare_tokens
    rw [hb']
    simpa using compareMaps_self hb' haddr
  refine ⟨hcmp, ?_⟩
  intro inp tl hdir hfile htok hload
  unfold mainRun
  cases hte : (get_token_dirs inp.entries).isEmpty with
  | true => simp [hdir, hte]
  | false => simp [hdir, hte, hload, hfile, load_existing_token_list, htok, hcmp]

/-- Witness for C4 at a concrete one-token collection and run. -/
theorem compare_tokens_self_witness :
    compare_tokens [[("symbol", JVal.s "A"), ("address", JVal.s "0x1")]]
        [[("symbol", JVal.s "A"), ("address", JVal.s "0x1")]] =
      .ok (none, none) :=
  (compare_tokens_self [[("symbol", JVal.s "A"), ("address", JVal.s "0x1")]]
    (by decide) (by decide)).1

/-! ## Branch lemmas for the cascade -/

/-- Once both symbol maps build, `compare_tokens` is `compareMaps`. -/
theorem compare_tokens_eq_compareMaps {old_tokens new_tokens : List Token}
    {om nm : JMap} (ho : buildMap old_tokens = .ok om)
    (hn : buildMap new_tokens = .ok nm) :
    compare_tokens old_tokens new_tokens = compareMaps om nm := by
  unfold compare_tokens
  rw [ho, hn]
  rfl

/-- A failure building the old map escapes `compare_tokens`. -/
theorem compare_tokens_error_left {old_tokens new_tokens : List Token}
    {e : String} (h : buildMap old_tokens = .error e) :
    compare_tokens old_tokens new_tokens = .error e := by
  unfold compare_tokens
  rw [h]
  rfl

/-- A failure building the new map escapes `compare_tokens`. -/
theorem compare_tokens_error_right {old_tokens new_tokens : List Token}
    {om : JMap} {e : String} (ho : buildMap old_tokens = .ok om)
    (h : buildMap new_tokens = .error e) :
    compare_tokens old_tokens new_tokens = .error e := by
  unfold compare_tokens
  rw [ho, h]
  rfl

/-- First cascade check: a nonempty `removed` set returns `major`. -/
theorem compareMaps_removed {om nm : JMap}
    (h : (removedList om nm).isEmpty = false) :
    compareMaps om nm = .ok (some "major",
      some ("Tokens removed: " ++
        String.intercalate ", " ((removedList om nm).map jstr))) := by
  unfold compareMaps
  simp [h]

/-- Second cascade check: with nothing removed, a key with a differing
address returns `major`. -/
theorem compareMaps_addr {om nm : JMap} {k : JVal}
    (hrem : (removedList om nm).isEmpty = true)
    (haddr : addressLoop om nm (commonList om nm) = .ok (some k)) :
    compareMaps om nm =
      .ok (some "major", some ("Token address changed: " ++ jstr k)) := by
  unfold compareMaps
  simp [hrem, haddr]

/-- A `KeyError` raised inside the address loop escapes the cascade. -/
theorem compareMaps_addr_error {om nm : JMap} {e : String}
    (hrem : (removedList om nm).isEmpty = true)
    (haddr : addressLoop om nm (commonList om nm) = .error e) :
    compareMaps om nm = .error e := by
  unfold compareMaps
  simp [hrem, haddr]

/-- Third cascade check: with nothing removed and addresses unchanged,
a nonempty `added` set returns `minor`. -/
theorem compareMaps_added {om nm : JMap}
    (hrem : (removedList om nm).isEmpty = true)
    (haddr : addressLoop om nm (commonList om nm) = .ok none)
    (hadd : (addedList om nm).isEmpty = false) :
    compareMaps om nm = .ok (some "minor",
      some ("Tokens added: " ++
        String.intercalate ", " ((addedList om nm).map jstr))) := by
  unfold compareMaps
  simp [hrem, haddr, hadd]

/-- Fourth cascade check: with nothing removed, added or readdressed, a
common record differing on any field returns `patch`. -/
theorem compareMaps_patch {om nm : JMap}
    (hrem : (removedList om nm).isEmpty = true)
    (haddr : addressLoop om nm (commonList om nm) = .ok none)
    (hadd : (addedList om nm).isEmpty = true)
    (hpatch : patchLoop om nm (commonList om nm) = true) :
    compareMaps om nm = .ok (some "patch", some "Token metadata updated") := by
  unfold compareMaps
  simp [hrem, haddr, hadd, hpatch]

/-- Bottom of the cascade: no check fired, no change. -/
theorem compareMaps_none {om nm : JMap}
    (hrem : (removedList om nm).isEmpty = true)
    (haddr : addressLoop om nm (commonList om nm) = .ok none)
    (hadd : (addedList om nm).isEmpty = true)
    (hpatch : patchLoop om nm (commonList om nm) = false) :
    compareMaps om nm = .ok (none, none) := by
  unfold compareMaps
  simp [hrem, haddr, hadd, hpatch]

/-- With pairwise-distinct symbols, the dict keeps the record: lookup of
a member record's symbol yields exactly that record. -/
theorem lookupLast_of_unique {ts : List Token} (hu : UniqueSymbols ts)
    {t : Token} {k : JVal} (hmem : t ∈ ts) (hsym : symKey? t = some k) :
    lookupLast ts k = some t := by
  unfold UniqueSymbols at hu
  induction ts with
  | nil => simp at hmem
  | cons u rest ih =>
    rw [lookupLast]
    obtain ⟨hhead, htail⟩ := List.pairwise_cons.mp hu
    rcases List.mem_cons.mp hmem with rfl | hmem'
    · have hnone : lookupLast rest k = none := by
        apply lookupLast_eq_none
        intro v hv hvk
        exact hhead v hv (by rw [hsym, hvk])
      rw [hnone, if_pos hsym]
    · rw [ih htail hmem']

/-! ## Claim C10: when `compare_tokens` raises -/

/-- A key is common exactly when it is in both maps. -/
theorem mem_commonList {om nm : JMap} {k : JVal} :
    k ∈ commonList om nm ↔ k ∈ keysOf om ∧ k ∈ keysOf nm := by
  simp [commonList, List.mem_filter, memJ_iff]

/-- `removed` is empty when every old key is also a new key. -/
theorem removedList_eq_nil {om nm : JMap}
    (h : ∀ k ∈ keysOf om, k ∈ keysOf nm) : removedList om nm = [] := by
  apply List.filter_eq_nil_iff.mpr
  intro k hk
  simp [memJ_iff, h k hk]

/-- C10 counterexample: a record for a symbol common to both collections
(`B`) lacks an `address`, yet `compare_tokens` does not raise `KeyError`
— the removal check fires first and returns a `major` classification. -/
theorem compare_tokens_keyerror_shortcircuit :
    compare_tokens
        [[("symbol", JVal.s "A"), ("address", JVal.s "0x1")],
         [("symbol", JVal.s "B")]]
        [[("symbol", JVal.s "B")]] =
      .ok (some "major", some "Tokens removed: A") ∧
    dget? [("symbol", JVal.s "B")] "address" = none := by
  constructor
  · rfl
  · rfl

/-- C10 (amended): `compare_tokens` raises `KeyError` when any record of
either collection lacks a `symbol` field. A missing `address` on a
common-symbol record raises `KeyError` only when the earlier cascade
checks do not short-circuit first: with all symbols present and unique,
no symbol removed, and all present addresses of common pairs equal, the
address loop reaches the defective record and raises. Conversely, when
every record has a `symbol` and every record whose symbol appears in
both collections has an `address`, the call returns a classification. -/
theorem compare_tokens_totality (old_tokens new_tokens : List Token) :
    (((∃ t ∈ old_tokens, symKey? t = none) ∨
        (∃ t ∈ new_tokens, symKey? t = none)) →
      ∃ e, compare_tokens old_tokens new_tokens = .error e) ∧
    ((∀ t ∈ old_tokens, (symKey? t).isSome) →
      (∀ t ∈ new_tokens, (symKey? t).isSome) →
      UniqueSymbols old_tokens → UniqueSymbols new_tokens →
      (∀ t ∈ old_tokens, ∃ u ∈ new_tokens, symKey? u = symKey? t) →
      (∀ t ∈ old_tokens, ∀ u ∈ new_tokens, symKey? t = symKey? u →
        ∀ a b, dget? t "address" = some a → dget? u "address" = some b →
          a = b) →
      (∃ t ∈ old_tokens, ∃ u ∈ new_tokens, symKey? t = symKey? u ∧
        (dget? t "address" = none ∨ dget? u "address" = none)) →
      ∃ e, compare_tokens old_tokens new_tokens = .error e) ∧
    ((∀ t ∈ old_tokens, (symKey? t).isSome) →
      (∀ t ∈ new_tokens, (symKey? t).isSome) →
      (∀ t ∈ old_tokens, (∃ u ∈ new_tokens, symKey? u = symKey? t) →
        (dget? t "address").isSome) →
      (∀ u ∈ new_tokens, (∃ t ∈ old_tokens, symKey? t = symKey? u) →
        (dget? u "address").isSome) →
      ∃ r, compare_tokens old_tokens new_tokens = .ok r) := by
  refine ⟨?_, ?_, ?_⟩
  · rintro (⟨t, ht, hsym⟩ | ⟨t, ht, hsym⟩)
    · obtain ⟨e, he⟩ := buildMapFrom_error_of_missing [] ⟨t, ht, hsym⟩
      exact ⟨e, compare_tokens_error_left he⟩
    · cases hbo : buildMap old_tokens with
      | error e => exact ⟨e, compare_tokens_error_left hbo⟩
      | ok om =>
        obtain ⟨e, he⟩ := buildMapFrom_error_of_missing [] ⟨t, ht, hsym⟩
        exact ⟨e, compare_tokens_error_right hbo he⟩
  · intro hos hns hou hnu hnorem hagree hmiss
    obtain ⟨om, hbo⟩ := buildMapFrom_ok_of_allSym [] hos
    obtain ⟨nm, hbn⟩ := buildMapFrom_ok_of_allSym [] hns
    have hbo' : buildMap old_tokens = .ok om := hbo
    have hbn' : buildMap new_tokens = .ok nm := hbn
    have hremnil : removedList om nm = [] := by
      apply removedList_eq_nil
      intro k hk
      obtain ⟨t, htmem, htsym⟩ := (buildMap_ok_mem_keys hbo' k).mp hk
      obtain ⟨u, humem, husym⟩ := hnorem t htmem
      exact (buildMap_ok_mem_keys hbn' k).mpr ⟨u, humem, husym.trans htsym⟩
    have hrem : (removedList om nm).isEmpty = true := by rw [hremnil]; rfl
    have hall : ∀ k ∈ commonList om nm, ∀ ot nt oa na,
        mget? om k = some ot → mget? nm k = some nt →
        dget? ot "address" = some oa → dget? nt "address" = some na →
        oa = na := by
      intro k hk ot nt oa na hmo hmn hoa hna
      obtain ⟨hotm, hots⟩ := lookupLast_mem ((buildMap_ok_mget hbo').symm.trans hmo)
      obtain ⟨hntm, hnts⟩ := lookupLast_mem ((buildMap_ok_mget hbn').symm.trans hmn)
      exact hagree ot hotm nt hntm (hots.trans hnts.symm) oa na hoa hna
    have hmiss' : ∃ k ∈ commonList om nm, ¬AddrLookups om nm k := by
      obtain ⟨t, htmem, u, humem, hsymeq, hmissing⟩ := hmiss
      obtain ⟨kv, hkv⟩ := Option.isSome_iff_exists.mp (hos t htmem)
      have husym : symKey? u = some kv := hsymeq.symm.trans hkv
      have hkom : kv ∈ keysOf om := (buildMap_ok_mem_keys hbo' kv).mpr ⟨t, htmem, hkv⟩
      have hknm : kv ∈ keysOf nm := (buildMap_ok_mem_keys hbn' kv).mpr ⟨u, humem, husym⟩
      refine ⟨kv, mem_commonList.mpr ⟨hkom, hknm⟩, ?_⟩
      rintro ⟨ot, oa, nt, na, hmo, hoa, hmn, hna⟩
      have hto : mget? om kv = some t := by
        rw [buildMap_ok_mget hbo']
        exact lookupLast_of_unique hou htmem hkv
      have hun : mget? nm kv = some u := by
        rw [buildMap_ok_mget hbn']
        exact lookupLast_of_unique hnu humem husym
      rw [hto] at hmo
      injection hmo with hmo'
      subst hmo'
      rw [hun] at hmn
      injection hmn with hmn'
      subst hmn'
      rcases hmissing with hm | hm
      · rw [hm] at hoa
        exact absurd hoa (by simp)
      · rw [hm] at hna
        exact absurd hna (by simp)
    obtain ⟨e, herr⟩ := addressLoop_error hall hmiss'
    exact ⟨e, (compare_tokens_eq_compareMaps hbo' hbn').trans
      (compareMaps_addr_error hrem herr)⟩
  · intro hos hns hoaddr hnaddr
    obtain ⟨om, hbo⟩ := buildMapFrom_ok_of_allSym [] hos
    obtain ⟨nm, hbn⟩ := buildMapFrom_ok_of_allSym [] hns
    have hbo' : buildMap old_tokens = .ok om := hbo
    have hbn' : buildMap new_tokens = .ok nm := hbn
    have hcc := compare_tokens_eq_compareMaps hbo' hbn'
    cases hrem : (removedList om nm).isEmpty with
    | false => exact ⟨_, hcc.trans (compareMaps_removed hrem)⟩
    | true =>
      have hlookups : ∀ k ∈ commonList om nm, AddrLookups om nm k := by
        intro k hk
        obtain ⟨hkom, hknm⟩ := mem_commonList.mp hk
        obtain ⟨ot, hmo⟩ := mget?_isSome_of_mem_keysOf hkom
        obtain ⟨nt, hmn⟩ := mget?_isSome_of_mem_keysOf hknm
        obtain ⟨hotm, hots⟩ := lookupLast_mem ((buildMap_ok_mget hbo').symm.trans hmo)
        obtain ⟨hntm, hnts⟩ := lookupLast_mem ((buildMap_ok_mget hbn').symm.trans hmn)
        obtain ⟨oa, hoa⟩ := Option.isSome_iff_exists.mp
          (hoaddr ot hotm ⟨nt, hntm, hnts.trans hots.symm⟩)
        obtain ⟨na, hna⟩ := Option.isSome_iff_exists.mp
          (hnaddr nt hntm ⟨ot, hotm, hots.trans hnts.symm⟩)
        exact ⟨ot, oa, nt, na, hmo, hoa, hmn, hna⟩
      have hfind := addressLoop_eq_find hlookups
      cases hf : (commonList om nm).find? (addrDiffb om nm) with
      | some k =>
        exact ⟨_, hcc.trans (compareMaps_addr hrem (hfind.trans (by rw [hf])))⟩
      | none =>
        have haloop : addressLoop om nm (commonList om nm) = .ok none :=
          hfind.trans (by rw [hf])
        cases hadd : (addedList om nm).isEmpty with
        | false => exact ⟨_, hcc.trans (compareMaps_added hrem haloop hadd)⟩
        | true =>
          cases hp : patchLoop om nm (commonList om nm) with
          | true => exact ⟨_, hcc.trans (compareMaps_patch hrem haloop hadd hp)⟩
          | false => exact ⟨_, hcc.trans (compareMaps_none hrem haloop hadd hp)⟩

/-- Witness for C10's amended theorem: with symbols and common addresses
present, a concrete comparison returns a classification. -/
theorem compare_tokens_totality_witness :
    ∃ r, compare_tokens [[("symbol", JVal.s "A"), ("address", JVal.s "0x1")]]
        [[("symbol", JVal.s "A"), ("address", JVal.s "0x2")]] = .ok r :=
  (compare_tokens_totality
      [[("symbol", JVal.s "A"), ("address", JVal.s "0x1")]]
      [[("symbol", JVal.s "A"), ("address", JVal.s "0x2")]]).2.2
    (by decide) (by decide) (by decide) (by decide)

/-! ## Claim C9: duplicate symbols — last record wins -/

/-- Two symbol maps with the same keys in the same order whose records
agree everywhere except possibly at key `k`. -/
def AgreeExcept (k : JVal) (m m' : JMap) : Prop :=
  List.Forall₂ (fun p q => p.1 = q.1 ∧ (p.1 ≠ k → p.2 = q.2)) m m'

/-- `AgreeExcept` is reflexive. -/
theorem agreeExcept_refl (k : JVal) (m : JMap) : AgreeExcept k m m :=
  List.forall₂_same.mpr fun _ _ => ⟨rfl, fun _ => rfl⟩

/-- Maps agreeing except at `k` have the same keys. -/
theorem agreeExcept_keysOf {k : JVal} {m m' : JMap} (h : AgreeExcept k m m') :
    keysOf m = keysOf m' := by
  induction h with
  | nil => rfl
  | cons hr _ ih =>
    simp only [keysOf, List.map_cons] at ih ⊢
    rw [hr.1, ih]

/-- Maps agreeing except at a key neither contains are equal. -/
theorem agreeExcept_eq {k : JVal} {m m' : JMap} (h : AgreeExcept k m m')
    (hk : k ∉ keysOf m) : m = m' := by
  induction h with
  | nil => rfl
  | cons hr hrest ih =>
    rename_i p q l l'
    simp only [keysOf, List.map_cons, List.mem_cons] at hk
    push_neg at hk
    have hp1 : p.1 ≠ k := fun hh => hk.1 hh.symm
    have hpq : p = q := Prod.ext hr.1 (hr.2 hp1)
    rw [hpq, ih hk.2]

/-- Assigning the same key and record on both sides preserves
`AgreeExcept`. -/
theorem agreeExcept_mset {k : JVal} {m m' : JMap} (h : AgreeExcept k m m')
    (j : JVal) (v : Token) : AgreeExcept k (mset m j v) (mset m' j v) := by
  induction h with
  | nil => exact List.Forall₂.cons ⟨rfl, fun _ => rfl⟩ List.Forall₂.nil
  | cons hr hrest ih =>
    rename_i p q l l'
    obtain ⟨p1, p2⟩ := p
    obtain ⟨q1, q2⟩ := q
    obtain ⟨hq1, hv⟩ := hr
    simp only at hq1 hv
    subst hq1
    by_cases hp : p1 = j
    · simp only [mset, hp, if_true]
      exact List.Forall₂.cons ⟨rfl, fun _ => rfl⟩ hrest
    · simp only [mset, hp, if_false]
      exact List.Forall₂.cons ⟨rfl, hv⟩ ih

/-- Two assignments of key `k` with different records produce maps that
agree except at `k`. -/
theorem agreeExcept_mset_value (k : JVal) (m : JMap) (t t' : Token) :
    AgreeExcept k (mset m k t) (mset m k t') := by
  induction m with
  | nil => exact List.Forall₂.cons ⟨rfl, fun hk => absurd rfl hk⟩ List.Forall₂.nil
  | cons p rest ih =>
    obtain ⟨p1, p2⟩ := p
    by_cases hp : p1 = k
    · simp only [mset, hp, if_true]
      exact List.Forall₂.cons ⟨rfl, fun hk => absurd rfl hk⟩ (agreeExcept_refl k rest)
    · simp only [mset, hp, if_false]
      exact List.Forall₂.cons ⟨rfl, fun _ => rfl⟩ ih

/-- The keys of a Python dict stay duplicate-free under assignment. -/
theorem nodup_keysOf_mset {m : JMap} (hnd : (keysOf m).Nodup) (k : JVal)
    (t : Token) : (keysOf (mset m k t)).Nodup := by
  induction m with
  | nil => simp [mset, keysOf]
  | cons p rest ih =>
    obtain ⟨p1, p2⟩ := p
    simp only [keysOf, List.map_cons, List.nodup_cons] at hnd
    by_cases hp : p1 = k
    · subst hp
      simp only [mset, if_true, keysOf, List.map_cons, List.nodup_cons]
      exact hnd
    · simp only [mset, hp, if_false, keysOf, List.map_cons, List.nodup_cons]
      refine ⟨fun hmem => ?_, ih hnd.2⟩
      rcases (mem_keysOf_mset rest k p1 t).mp hmem with h' | h'
      · exact hnd.1 h'
      · exact hp h'

/-- On duplicate-free maps, assigning key `k` erases any disagreement at
`k`: the results are equal. -/
theorem mset_eq_of_agreeExcept {k : JVal} {m m' : JMap}
    (h : AgreeExcept k m m') (hnd : (keysOf m).Nodup) (v : Token) :
    mset m k v = mset m' k v := by
  induction h with
  | nil => rfl
  | cons hr hrest ih =>
    rename_i p q l l'
    obtain ⟨p1, p2⟩ := p
    obtain ⟨q1, q2⟩ := q
    obtain ⟨hq1, hv⟩ := hr
    simp only at hq1 hv
    subst hq1
    simp only [keysOf, List.map_cons, List.nodup_cons] at hnd
    by_cases hp : p1 = k
    · subst hp
      have hleq : l = l' := agreeExcept_eq hrest hnd.1
      simp only [mset, if_true, hleq]
    · have h2 := hv hp
      subst h2
      simp only [mset, hp, if_false]
      rw [ih hnd.2]

/-- Building a symbol map over a token list that still holds a record
with symbol `k` further on erases any accumulator disagreement at `k`. -/
theorem buildMapFrom_agreeExcept {k : JVal} {t2 : Token}
    (h2 : symKey? t2 = some k) (post : List Token) (mid : List Token) :
    ∀ (acc acc' : JMap), AgreeExcept k acc acc' → (keysOf acc).Nodup →
      buildMapFrom acc (mid ++ t2 :: post) =
        buildMapFrom acc' (mid ++ t2 :: post) := by
  induction mid with
  | nil =>
    intro acc acc' hag hnd
    simp only [List.nil_append, buildMapFrom, h2]
    rw [mset_eq_of_agreeExcept hag hnd t2]
  | cons u mid ih =>
    intro acc acc' hag hnd
    simp only [List.cons_append, buildMapFrom]
    cases hs : symKey? u with
    | none => simp only [hs]
    | some s =>
      simp only [hs]
      exact ih (mset acc s u) (mset acc' s u) (agreeExcept_mset hag s u)
        (nodup_keysOf_mset hnd s u)

/-- Replacing a record that a later record with the same symbol will
overwrite does not change the symbol map that gets built. -/
theorem buildMapFrom_dup_replace {k : JVal} {t1 t1' t2 : Token}
    (h1 : symKey? t1 = some k) (h1' : symKey? t1' = some k)
    (h2 : symKey? t2 = some k) (mid post : List Token) (pre : List Token) :
    ∀ (acc : JMap), (keysOf acc).Nodup →
      buildMapFrom acc (pre ++ t1 :: mid ++ t2 :: post) =
        buildMapFrom acc (pre ++ t1' :: mid ++ t2 :: post) := by
  induction pre with
  | nil =>
    intro acc hnd
    simp only [List.nil_append, buildMapFrom, h1, h1']
    exact buildMapFrom_agreeExcept h2 post mid (mset acc k t1) (mset acc k t1')
      (agreeExcept_mset_value k acc t1 t1') (nodup_keysOf_mset hnd k t1)
  | cons u pre ih =>
    intro acc hnd
    simp only [List.cons_append, buildMapFrom]
    cases hs : symKey? u with
    | none => simp only [hs]
    | some s =>
      simp only [hs]
      exact ih (mset acc s u) (nodup_keysOf_mset hnd s u)

/-- C9: duplicate symbols within a collection raise no error — the dict
comprehension silently overwrites, so map construction succeeds whenever
every record has a `symbol` — and only the last record with a given
symbol matters: replacing an earlier duplicate by any record bearing the
same symbol leaves both the classification and the description of
`compare_tokens` unchanged, on whichever side the duplicate occurs. -/
theorem compare_tokens_duplicate_symbols
    (pre mid post other : List Token) (t1 t1' t2 : Token) (k : JVal)
    (h1 : symKey? t1 = some k) (h1' : symKey? t1' = some k)
    (h2 : symKey? t2 = some k) :
    compare_tokens (pre ++ t1 :: mid ++ t2 :: post) other =
      compare_tokens (pre ++ t1' :: mid ++ t2 :: post) other ∧
    compare_tokens other (pre ++ t1 :: mid ++ t2 :: post) =
      compare_tokens other (pre ++ t1' :: mid ++ t2 :: post) ∧
    (∀ ts : List Token, (∀ t ∈ ts, (symKey? t).isSome) →
      ∃ m, buildMap ts = .ok m) := by
  have hmaps : buildMap (pre ++ t1 :: mid ++ t2 :: post) =
      buildMap (pre ++ t1' :: mid ++ t2 :: post) :=
    buildMapFrom_dup_replace h1 h1' h2 mid post pre [] (by simp [keysOf])
  refine ⟨?_, ?_, fun ts hs => buildMapFrom_ok_of_allSym [] hs⟩
  · unfold compare_tokens
    rw [hmaps]
  · unfold compare_tokens
    rw [hmaps]

/-- Witness for C9 at a concrete duplicated symbol: the collection
`[A@0x9, A@0x1]` behaves exactly like `[A@0x7, A@0x1]` — the earlier
record is irrelevant — and like the deduplicated `[A@0x1]` itself. -/
theorem compare_tokens_duplicate_symbols_witness :
    compare_tokens [[("symbol", JVal.s "A"), ("address", JVal.s "0x9")],
        [("symbol", JVal.s "A"), ("address", JVal.s "0x1")]]
      [[("symbol", JVal.s "A"), ("address", JVal.s "0x1")]] =
    compare_tokens [[("symbol", JVal.s "A"), ("address", JVal.s "0x7")],
        [("symbol", JVal.s "A"), ("address", JVal.s "0x1")]]
      [[("symbol", JVal.s "A"), ("address", JVal.s "0x1")]] :=
  (compare_tokens_duplicate_symbols []
    [] [] [[("symbol", JVal.s "A"), ("address", JVal.s "0x1")]]
    [("symbol", JVal.s "A"), ("address", JVal.s "0x9")]
    [("symbol", JVal.s "A"), ("address", JVal.s "0x7")]
    [("symbol", JVal.s "A"), ("address", JVal.s "0x1")]
    (JVal.s "A") rfl rfl rfl).1

/-! ## Bridging the implementation to the specification cascade -/

/-- What `specLookup` returns is a member bearing the symbol. -/
theorem specLookup_mem {ts : List Token} {k : JVal} {u : Token}
    (h : specLookup ts k = some u) : u ∈ ts ∧ symKey? u = some k := by
  unfold specLookup at h
  have h2 := List.find?_some h
  simp only [decide_eq_true_eq] at h2
  exact ⟨List.mem_of_find?_eq_some h, h2⟩

/-- With pairwise-distinct symbols, `specLookup` finds a member record
at its own symbol. -/
theorem specLookup_of_unique {ts : List Token} (hu : UniqueSymbols ts)
    {t : Token} {k : JVal} (hmem : t ∈ ts) (hsym : symKey? t = some k) :
    specLookup ts k = some t := by
  unfold UniqueSymbols at hu
  unfold specLookup
  induction ts with
  | nil => simp at hmem
  | cons u rest ih =>
    obtain ⟨hhead, htail⟩ := List.pairwise_cons.mp hu
    by_cases hus : symKey? u = some k
    · rw [List.find?_cons_of_pos _ (by simp [hus])]
      rcases List.mem_cons.mp hmem with rfl | hmem'
      · rfl
      · exact absurd (hus.trans hsym.symm) (hhead t hmem')
    · rw [List.find?_cons_of_neg _ (by simp [hus])]
      rcases List.mem_cons.mp hmem with rfl | hmem'
      · exact absurd hsym hus
      · exact ih htail hmem'

/-- With pairwise-distinct symbols, the last record per symbol is also
the first: the dict lookup agrees with the specification's lookup. -/
theorem lookupLast_eq_specLookup {ts : List Token} (hu : UniqueSymbols ts)
    (k : JVal) : lookupLast ts k = specLookup ts k := by
  cases hl : lookupLast ts k with
  | some t =>
    obtain ⟨hm, hs⟩ := lookupLast_mem hl
    exact (specLookup_of_unique hu hm hs).symm
  | none =>
    symm
    unfold specLookup
    apply List.find?_eq_none.mpr
    intro t ht hd
    obtain ⟨r, hr⟩ := lookupLast_isSome ht (of_decide_eq_true hd)
    rw [hl] at hr
    exact absurd hr (by simp)

/-- Under unique symbols, lookup in the built map is the specification
lookup. -/
theorem mget?_eq_specLookup {ts : List Token} {m : JMap}
    (hb : buildMap ts = .ok m) (hu : UniqueSymbols ts) (k : JVal) :
    mget? m k = specLookup ts k :=
  (buildMap_ok_mget hb).trans (lookupLast_eq_specLookup hu k)

/-- `any` is false exactly when the predicate fails everywhere. -/
theorem any_eq_false_iff {α : Type} (l : List α) (p : α → Bool) :
    l.any p = false ↔ ∀ a ∈ l, p a = false := by
  rw [← Bool.not_eq_true, List.any_eq_true]
  push_neg
  simp

/-- `specRemoval` is false when every old symbol recurs in the new
collection. -/
theorem specRemoval_false_iff (a b : List Token) :
    specRemoval a b = false ↔ ∀ t ∈ a, ∃ u ∈ b, symKey? u = symKey? t := by
  simp [specRemoval]

/-- `specAddrChange` is false when every common symbol keeps its
address. -/
theorem specAddrChange_false_iff (a b : List Token) :
    specAddrChange a b = false ↔
      ∀ t ∈ a, ∀ k u, symKey? t = some k → specLookup b k = some u →
        dget? t "address" = dget? u "address" := by
  unfold specAddrChange
  rw [any_eq_false_iff]
  constructor
  · intro h t ht k u hsk hlu
    have hb := h t ht
    simp only [hsk, hlu] at hb
    exact not_not.mp (of_decide_eq_false hb)
  · intro h t ht
    cases hsk : symKey? t with
    | none => simp [hsk]
    | some k =>
      cases hlu : specLookup b k with
      | none => simp [hsk, hlu]
      | some u =>
        simp only [hsk, hlu]
        exact decide_eq_false fun hne => hne (h t ht k u hsk hlu)

/-- `specMetaDiff` is true when some common symbol has records that are
unequal as dicts. -/
theorem specMetaDiff_true_iff (a b : List Token) :
    specMetaDiff a b = true ↔
      ∃ t ∈ a, ∃ k u, symKey? t = some k ∧ specLookup b k = some u ∧
        dictEqb t u = false := by
  unfold specMetaDiff
  rw [List.any_eq_true]
  constructor
  · rintro ⟨t, ht, hb⟩
    cases hsk : symKey? t with
    | none => simp [hsk] at hb
    | some k =>
      simp only [hsk] at hb
      cases hlu : specLookup b k with
      | none => simp [hlu] at hb
      | some u =>
        simp only [hlu] at hb
        exact ⟨t, ht, k, u, hsk, hlu, by simpa using hb⟩
  · rintro ⟨t, ht, k, u, hsk, hlu, hne⟩
    refine ⟨t, ht, ?_⟩
    simp only [hsk, hlu]
    simp [hne]

/-- The address-difference test is false exactly at equal addresses. -/
theorem addrDiffb_false_iff (om nm : JMap) (k : JVal) :
    addrDiffb om nm k = false ↔ addrOf om k = addrOf nm k := by
  simp [addrDiffb]

/-- Under unique symbols, the address the map holds for a symbol is the
address of the collection's record bearing it. -/
theorem addrOf_eq {ts : List Token} {m : JMap} (hb : buildMap ts = .ok m)
    (hu : UniqueSymbols ts) {t : Token} {k : JVal} (ht : t ∈ ts)
    (hsk : symKey? t = some k) : addrOf m k = dget? t "address" := by
  unfold addrOf
  rw [buildMap_ok_mget hb, lookupLast_of_unique hu ht hsk]
  rfl

/-- `removed` is empty exactly when every old key recurs. -/
theorem removedList_nil_iff (om nm : JMap) :
    removedList om nm = [] ↔ ∀ k ∈ keysOf om, k ∈ keysOf nm := by
  simp [removedList, List.filter_eq_nil_iff, memJ_iff]

/-- The implementation's removal check agrees with the specification's
removal condition. -/
theorem removedList_nil_iff_spec {a b : List Token} {om nm : JMap}
    (hbo : buildMap a = .ok om) (hbn : buildMap b = .ok nm)
    (has : ∀ t ∈ a, (symKey? t).isSome) :
    removedList om nm = [] ↔ specRemoval a b = false := by
  rw [removedList_nil_iff, specRemoval_false_iff]
  constructor
  · intro h t ht
    obtain ⟨k, hk⟩ := Option.isSome_iff_exists.mp (has t ht)
    have hknm : k ∈ keysOf nm :=
      h k ((buildMap_ok_mem_keys hbo k).mpr ⟨t, ht, hk⟩)
    obtain ⟨u, hu, hus⟩ := (buildMap_ok_mem_keys hbn k).mp hknm
    exact ⟨u, hu, hus.trans hk.symm⟩
  · intro h k hk
    obtain ⟨t, ht, hts⟩ := (buildMap_ok_mem_keys hbo k).mp hk
    obtain ⟨u, hu, hus⟩ := h t ht
    exact (buildMap_ok_mem_keys hbn k).mpr ⟨u, hu, hus.trans hts⟩

/-- A nonempty list is not `isEmpty`. -/
theorem isEmpty_false_of_ne_nil {α : Type} {l : List α} (h : l ≠ []) :
    l.isEmpty = false := by
  cases l with
  | nil => exact absurd rfl h
  | cons a l => rfl

/-- `added` is `removed` with the two maps swapped. -/
theorem addedList_eq_removedList (om nm : JMap) :
    addedList om nm = removedList nm om := rfl

/-- The implementation's address check agrees with the specification's
address-change condition. -/
theorem addrFind_none_iff_spec {a b : List Token} {om nm : JMap}
    (hbo : buildMap a = .ok om) (hbn : buildMap b = .ok nm)
    (hou : UniqueSymbols a) (hnu : UniqueSymbols b) :
    (commonList om nm).find? (addrDiffb om nm) = none ↔
      specAddrChange a b = false := by
  rw [List.find?_eq_none, specAddrChange_false_iff]
  constructor
  · intro h t ht k u hsk hlu
    obtain ⟨humem, husym⟩ := specLookup_mem hlu
    have hkom : k ∈ keysOf om := (buildMap_ok_mem_keys hbo k).mpr ⟨t, ht, hsk⟩
    have hknm : k ∈ keysOf nm := (buildMap_ok_mem_keys hbn k).mpr ⟨u, humem, husym⟩
    have hdb := h k (mem_commonList.mpr ⟨hkom, hknm⟩)
    have hdb' : addrDiffb om nm k = false := by
      cases hd : addrDiffb om nm k with
      | false => rfl
      | true => exact absurd hd hdb
    have heq := (addrDiffb_false_iff om nm k).mp hdb'
    rw [addrOf_eq hbo hou ht hsk, addrOf_eq hbn hnu humem husym] at heq
    exact heq
  · intro h k hk hd
    obtain ⟨hkom, hknm⟩ := mem_commonList.mp hk
    obtain ⟨t, ht, hts⟩ := (buildMap_ok_mem_keys hbo k).mp hkom
    obtain ⟨u, hu, hus⟩ := (buildMap_ok_mem_keys hbn k).mp hknm
    have heq : dget? t "address" = dget? u "address" :=
      h t ht k u hts (specLookup_of_unique hnu hu hus)
    have haa : addrOf om k = addrOf nm k := by
      rw [addrOf_eq hbo hou ht hts, addrOf_eq hbn hnu hu hus, heq]
    rw [(addrDiffb_false_iff om nm k).mpr haa] at hd
    exact absurd hd (by simp)

/-- The implementation's patch check agrees with the specification's
metadata-diff condition. -/
theorem patchLoop_iff_spec {a b : List Token} {om nm : JMap}
    (hbo : buildMap a = .ok om) (hbn : buildMap b = .ok nm)
    (hou : UniqueSymbols a) (hnu : UniqueSymbols b) :
    patchLoop om nm (commonList om nm) = true ↔ specMetaDiff a b = true := by
  rw [patchLoop_iff, specMetaDiff_true_iff]
  constructor
  · rintro ⟨k, hk, ot, nt, hmo, hmn, hd⟩
    rw [mget?_eq_specLookup hbo hou] at hmo
    rw [mget?_eq_specLookup hbn hnu] at hmn
    obtain ⟨hotm, hots⟩ := specLookup_mem hmo
    exact ⟨ot, hotm, k, nt, hots, hmn, hd⟩
  · rintro ⟨t, ht, k, u, hsk, hlu, hd⟩
    obtain ⟨humem, husym⟩ := specLookup_mem hlu
    have hkom : k ∈ keysOf om := (buildMap_ok_mem_keys hbo k).mpr ⟨t, ht, hsk⟩
    have hknm : k ∈ keysOf nm := (buildMap_ok_mem_keys hbn k).mpr ⟨u, humem, husym⟩
    refine ⟨k, mem_commonList.mpr ⟨hkom, hknm⟩, t, u, ?_, ?_, hd⟩
    · rw [mget?_eq_specLookup hbo hou]
      exact specLookup_of_unique hou ht hsk
    · rw [mget?_eq_specLookup hbn hnu]
      exact hlu

/-! ## Claim C1: the classification cascade -/

/-- C1: for collections whose records all carry unique string symbols,
and `address` fields, `compare_tokens` returns exactly the first
matching classification of the specification's ordered cascade
(`specClassify`): `major` on a removal; else `major` on an address
change; else `minor` on an addition; else `patch` on any other record
difference; else no change. In particular removal or address change
dominates addition (`major`), and addition dominates a metadata-only
edit (`minor`). -/
theorem compare_tokens_matches_spec (old_tokens new_tokens : List Token)
    (hou : UniqueSymbols old_tokens) (hnu : UniqueSymbols new_tokens)
    (hos : ∀ t ∈ old_tokens, ∃ s, symKey? t = some (JVal.s s))
    (hns : ∀ t ∈ new_tokens, ∃ s, symKey? t = some (JVal.s s))
    (hoaddr : ∀ t ∈ old_tokens, (dget? t "address").isSome)
    (hnaddr : ∀ t ∈ new_tokens, (dget? t "address").isSome) :
    (∃ d, compare_tokens old_tokens new_tokens =
        .ok (specClassify old_tokens new_tokens, d)) ∧
    (specRemoval old_tokens new_tokens = true →
      specClassify old_tokens new_tokens = some "major") ∧
    (specRemoval old_tokens new_tokens = false →
      specAddrChange old_tokens new_tokens = true →
      specClassify old_tokens new_tokens = some "major") ∧
    (specRemoval old_tokens new_tokens = false →
      specAddrChange old_tokens new_tokens = false →
      specAddition old_tokens new_tokens = true →
      specClassify old_tokens new_tokens = some "minor") ∧
    (specRemoval old_tokens new_tokens = false →
      specAddrChange old_tokens new_tokens = false →
      specAddition old_tokens new_tokens = false →
      specMetaDiff old_tokens new_tokens = true →
      specClassify old_tokens new_tokens = some "patch") ∧
    (specRemoval old_tokens new_tokens = false →
      specAddrChange old_tokens new_tokens = false →
      specAddition old_tokens new_tokens = false →
      specMetaDiff old_tokens new_tokens = false →
      specClassify old_tokens new_tokens = none) := by
  have hosS : ∀ t ∈ old_tokens, (symKey? t).isSome := by
    intro t ht
    obtain ⟨s, hs⟩ := hos t ht
    simp [hs]
  have hnsS : ∀ t ∈ new_tokens, (symKey? t).isSome := by
    intro t ht
    obtain ⟨s, hs⟩ := hns t ht
    simp [hs]
  have hmain : ∃ d, compare_tokens old_tokens new_tokens =
      .ok (specClassify old_tokens new_tokens, d) := by
    obtain ⟨om, hbo⟩ := buildMapFrom_ok_of_allSym [] hosS
    obtain ⟨nm, hbn⟩ := buildMapFrom_ok_of_allSym [] hnsS
    have hbo' : buildMap old_tokens = .ok om := hbo
    have hbn' : buildMap new_tokens = .ok nm := hbn
    have hcc := compare_tokens_eq_compareMaps hbo' hbn'
    have hlookups : ∀ k ∈ commonList om nm, AddrLookups om nm k := by
      intro k hk
      obtain ⟨hkom, hknm⟩ := mem_commonList.mp hk
      obtain ⟨ot, hmo⟩ := mget?_isSome_of_mem_keysOf hkom
      obtain ⟨nt, hmn⟩ := mget?_isSome_of_mem_keysOf hknm
      obtain ⟨hotm, -⟩ := lookupLast_mem ((buildMap_ok_mget hbo').symm.trans hmo)
      obtain ⟨hntm, -⟩ := lookupLast_mem ((buildMap_ok_mget hbn').symm.trans hmn)
      obtain ⟨oa, hoa⟩ := Option.isSome_iff_exists.mp (hoaddr ot hotm)
      obtain ⟨na, hna⟩ := Option.isSome_iff_exists.mp (hnaddr nt hntm)
      exact ⟨ot, oa, nt, na, hmo, hoa, hmn, hna⟩
    have hfind := addressLoop_eq_find hlookups
    cases hR : specRemoval old_tokens new_tokens with
    | true =>
      have hrm : removedList om nm ≠ [] := by
        intro hnil
        rw [removedList_nil_iff_spec hbo' hbn' hosS] at hnil
        rw [hnil] at hR
        exact absurd hR (by simp)
      refine ⟨some ("Tokens removed: " ++
        String.intercalate ", " ((removedList om nm).map jstr)), ?_⟩
      rw [hcc, compareMaps_removed (isEmpty_false_of_ne_nil hrm)]
      rw [show specClassify old_tokens new_tokens = some "major" by
        simp [specClassify, hR]]
    | false =>
      have hremnil : removedList om nm = [] :=
        (removedList_nil_iff_spec hbo' hbn' hosS).mpr hR
      have hre : (removedList om nm).isEmpty = true := by rw [hremnil]; rfl
      cases hA : specAddrChange old_tokens new_tokens with
      | true =>
        have hfne : (commonList om nm).find? (addrDiffb om nm) ≠ none := by
          intro hn
          rw [addrFind_none_iff_spec hbo' hbn' hou hnu] at hn
          rw [hn] at hA
          exact absurd hA (by simp)
        cases hf : (commonList om nm).find? (addrDiffb om nm) with
        | none => exact absurd hf hfne
        | some k0 =>
          refine ⟨some ("Token address changed: " ++ jstr k0), ?_⟩
          rw [hcc, compareMaps_addr hre (hfind.trans (by rw [hf]))]
          rw [show specClassify old_tokens new_tokens = some "major" by
            simp [specClassify, hR, hA]]
      | false =>
        have hfn : (commonList om nm).find? (addrDiffb om nm) = none :=
          (addrFind_none_iff_spec hbo' hbn' hou hnu).mpr hA
        have haloop : addressLoop om nm (commonList om nm) = .ok none :=
          hfind.trans (by rw [hfn])
        cases hAd : specAddition old_tokens new_tokens with
        | true =>
          have haddne : addedList om nm ≠ [] := by
            intro hnil
            rw [addedList_eq_removedList] at hnil
            rw [removedList_nil_iff_spec hbn' hbo' hnsS] at hnil
            rw [show specRemoval new_tokens old_tokens =
              specAddition old_tokens new_tokens from rfl] at hnil
            rw [hnil] at hAd
            exact absurd hAd (by simp)
          refine ⟨some ("Tokens added: " ++
            String.intercalate ", " ((addedList om nm).map jstr)), ?_⟩
          rw [hcc, compareMaps_added hre haloop (isEmpty_false_of_ne_nil haddne)]
          rw [show specClassify old_tokens new_tokens = some "minor" by
            simp [specClassify, hR, hA, hAd]]
        | false =>
          have haddnil : addedList om nm = [] := by
            rw [addedList_eq_removedList]
            exact (removedList_nil_iff_spec hbn' hbo' hnsS).mpr hAd
          have hadd : (addedList om nm).isEmpty = true := by rw [haddnil]; rfl
          cases hP : specMetaDiff old_tokens new_tokens with
          | true =>
            have hpl : patchLoop om nm (commonList om nm) = true :=
              (patchLoop_iff_spec hbo' hbn' hou hnu).mpr hP
            refine ⟨some "Token metadata updated", ?_⟩
            rw [hcc, compareMaps_patch hre haloop hadd hpl]
            rw [show specClassify old_tokens new_tokens = some "patch" by
              simp [specClassify, hR, hA, hAd, hP]]
          | false =>
            have hpl : patchLoop om nm (commonList om nm) = false := by
              cases hq : patchLoop om nm (commonList om nm) with
              | false => rfl
              | true =>
                rw [patchLoop_iff_spec hbo' hbn' hou hnu] at hq
                rw [hq] at hP
                exact absurd hP (by simp)
            refine ⟨none, ?_⟩
            rw [hcc, compareMaps_none hre haloop hadd hpl]
            rw [show specClassify old_tokens new_tokens = none by
              simp [specClassify, hR, hA, hAd, hP]]
  refine ⟨hmain, ?_, ?_, ?_, ?_, ?_⟩
  · intro h1
    simp [specClassify, h1]
  · intro h1 h2
    simp [specClassify, h1, h2]
  · intro h1 h2 h3
    simp [specClassify, h1, h2, h3]
  · intro h1 h2 h3 h4
    simp [specClassify, h1, h2, h3, h4]
  · intro h1 h2 h3 h4
    simp [specClassify, h1, h2, h3, h4]

/-- Witness for C1 at a concrete pair: one unchanged token plus one
added token — the cascade classifies `minor`. -/
theorem compare_tokens_matches_spec_witness :
    ∃ d, compare_tokens [[("symbol", JVal.s "A"), ("address", JVal.s "0x1")]]
        [[("symbol", JVal.s "A"), ("address", JVal.s "0x1")],
         [("symbol", JVal.s "B"), ("address", JVal.s "0x2")]] =
      .ok (specClassify [[("symbol", JVal.s "A"), ("address", JVal.s "0x1")]]
        [[("symbol", JVal.s "A"), ("address", JVal.s "0x1")],
         [("symbol", JVal.s "B"), ("address", JVal.s "0x2")]], d) :=
  (compare_tokens_matches_spec
    [[("symbol", JVal.s "A"), ("address", JVal.s "0x1")]]
    [[("symbol", JVal.s "A"), ("address", JVal.s "0x1")],
     [("symbol", JVal.s "B"), ("address", JVal.s "0x2")]]
    (by unfold UniqueSymbols; decide) (by unfold UniqueSymbols; decide)
    (by
      intro t ht
      rcases List.mem_singleton.mp ht with rfl
      exact ⟨"A", rfl⟩)
    (by
      intro t ht
      rcases List.mem_cons.mp ht with rfl | ht'
      · exact ⟨"A", rfl⟩
      · rcases List.mem_singleton.mp ht' with rfl
        exact ⟨"B", rfl⟩)
    (by decide) (by decide)).1
